import Mathlib

/-!
Shallow embedding of the flood-propagation core of `simulacion.py`
(`propagar_inundacion`, lines 252-300, and the level loop of PASO 6,
lines 320-330).  Grids are total functions on `Fin rows × Fin cols`.
Elevations and the water level live in an arbitrary linearly ordered
ring `α` with decidable order: the source computes with Python floats,
but the algorithm only adds the level, subtracts the constant `1.0` and
compares, so every claim is stated for all such `α` (in particular for
`ℚ` and `ℝ`), and concrete runs are evaluated at `α := ℤ`.
-/

/-- A rectangular grid of values, indexed by row then column. -/
abbrev Malla (rows cols : Nat) (α : Type) := Fin rows → Fin cols → α

/-- A cell coordinate of a `rows × cols` grid. -/
abbrev Celda (rows cols : Nat) := Fin rows × Fin cols

/-- The eight neighbor offsets `(dy, dx)` in the order generated by the
source's nested `for dy in [-1, 0, 1]: for dx in [-1, 0, 1]` loops with
the `(0, 0)` pair skipped. -/
def desplazamientos : List (Int × Int) :=
  [(-1, -1), (-1, 0), (-1, 1), (0, -1), (0, 1), (1, -1), (1, 0), (1, 1)]

/-- The in-bounds neighbors of cell `(y, x)`, in source order: the source
computes `ny, nx = y + dy, x + dx` and keeps the pair exactly when
`0 <= ny < dem.shape[0] and 0 <= nx < dem.shape[1]`. -/
def vecinos (rows cols : Nat) (y : Fin rows) (x : Fin cols) : List (Celda rows cols) :=
  desplazamientos.filterMap fun d =>
    if h : 0 ≤ (y.val : Int) + d.1 ∧ (y.val : Int) + d.1 < (rows : Int) ∧
        0 ≤ (x.val : Int) + d.2 ∧ (x.val : Int) + d.2 < (cols : Int) then
      some (⟨((y.val : Int) + d.1).toNat, by omega⟩, ⟨((x.val : Int) + d.2).toNat, by omega⟩)
    else none

variable {α : Type} [LinearOrderedRing α]

/-- The source's admission test for neighbor `n` of frontier cell `c`
(with `elev_actual = dem[y, x] + nivel_agua`):
`not inundacion[ny, nx] and dem[ny, nx] <= elev_actual and
dem[ny, nx] >= dem[y, x] - 1.0`. -/
def condicion {rows cols : Nat} (dem : Malla rows cols α) (nivel_agua : α)
    (inund : Malla rows cols Bool) (c n : Celda rows cols) : Bool :=
  !(inund n.1 n.2) && decide (dem n.1 n.2 ≤ dem c.1 c.2 + nivel_agua) &&
    decide (dem c.1 c.2 - 1 ≤ dem n.1 n.2)

/-- Setting one cell of a boolean grid to `true`
(the source's `inundacion[y, x] = True`). -/
def marcar {rows cols : Nat} (m : Malla rows cols Bool) (p : Celda rows cols) :
    Malla rows cols Bool :=
  fun y x => if (y, x) = p then true else m y x

/-- Processing one frontier cell `c`: visit its in-bounds neighbors in
source order and, whenever `condicion` holds at that moment, mark the
neighbor flooded and append it to `nuevos_puntos` (the accumulated second
component of the state). -/
def procesar_celda {rows cols : Nat} (dem : Malla rows cols α) (nivel_agua : α)
    (s : Malla rows cols Bool × List (Celda rows cols)) (c : Celda rows cols) :
    Malla rows cols Bool × List (Celda rows cols) :=
  (vecinos rows cols c.1 c.2).foldl
    (fun t n => if condicion dem nivel_agua t.1 c n then (marcar t.1 n, t.2 ++ [n]) else t) s

/-- One expansion round: the body of `for iteracion in range(pasos)`,
folding over the current `puntos_activos` with an initially empty
`nuevos_puntos` list. -/
def ronda {rows cols : Nat} (dem : Malla rows cols α) (nivel_agua : α)
    (inund : Malla rows cols Bool) (activos : List (Celda rows cols)) :
    Malla rows cols Bool × List (Celda rows cols) :=
  activos.foldl (procesar_celda dem nivel_agua) (inund, ([] : List (Celda rows cols)))

/-- The iteration loop of the source: at most `pasos` rounds, stopping
early as soon as a round produces an empty `nuevos_puntos` list
(`puntos_activos = nuevos_puntos; if not puntos_activos: break`). -/
def bucle {rows cols : Nat} (dem : Malla rows cols α) (nivel_agua : α) :
    Nat → Malla rows cols Bool → List (Celda rows cols) → Malla rows cols Bool
  | 0, inund, _ => inund
  | pasos + 1, inund, activos =>
    let r := ronda dem nivel_agua inund activos
    if r.2.isEmpty then r.1 else bucle dem nivel_agua pasos r.1 r.2

/-- The seed coordinate list, in the row-major order produced by
`np.where(semillas)` followed by `zip`. -/
def lista_semillas {rows cols : Nat} (semillas : Malla rows cols Bool) :
    List (Celda rows cols) :=
  (List.finRange rows).flatMap fun y =>
    (List.finRange cols).filterMap fun x => if semillas y x then some (y, x) else none

/-- Marking every seed cell on the all-false grid
`np.zeros_like(dem, dtype=bool)`: the source's
`for y, x in puntos_activos: inundacion[y, x] = True`. -/
def marcar_semillas {rows cols : Nat} (semillas : Malla rows cols Bool) :
    Malla rows cols Bool :=
  (lista_semillas semillas).foldl marcar (fun _ _ => false)

/-- The whole of `propagar_inundacion(dem, semillas, nivel_agua, pasos)`:
mark the seeds, then run the bounded expansion loop with the seed list as
the first frontier.  The source returns the grid as `uint8` zeros and
ones; we keep it boolean. -/
def propagar_inundacion {rows cols : Nat} (dem : Malla rows cols α)
    (semillas : Malla rows cols Bool) (nivel_agua : α) (pasos : Nat) :
    Malla rows cols Bool :=
  bucle dem nivel_agua pasos (marcar_semillas semillas) (lista_semillas semillas)

/-- One iteration of the PASO 6 level loop: seeds are the river mask,
propagation runs with the given budget, and the result is intersected
with the watershed mask (`inundacion = inundacion * cuenca_mask`, a
pointwise product of 0/1 grids). -/
def simular_nivel {rows cols : Nat} (dem : Malla rows cols α)
    (rio_mask cuenca_mask : Malla rows cols Bool) (nivel : α) (pasos : Nat) :
    Malla rows cols Bool :=
  fun y x => propagar_inundacion dem rio_mask nivel pasos y x && cuenca_mask y x

/-!
Order-free specification-side definitions: 8-neighbor adjacency, the
elevation part of the admission rule, and the round operator that admits
every cell adjacent to any currently flooded cell satisfying the rule.
-/

/-- Two cells are 8-connected neighbors: distinct, and at distance at
most one in each coordinate. -/
def adyacente {rows cols : Nat} (c n : Celda rows cols) : Prop :=
  c ≠ n ∧ ((c.1.val : Int) - n.1.val).natAbs ≤ 1 ∧ ((c.2.val : Int) - n.2.val).natAbs ≤ 1

instance {rows cols : Nat} (c n : Celda rows cols) : Decidable (adyacente c n) := by
  unfold adyacente; infer_instance

/-- The elevation part of the admission rule for flooding `n` from `c`:
`dem[n] <= dem[c] + nivel` and `dem[n] >= dem[c] - 1.0`. -/
def admisible {rows cols : Nat} (dem : Malla rows cols α) (nivel : α)
    (c n : Celda rows cols) : Prop :=
  dem n.1 n.2 ≤ dem c.1 c.2 + nivel ∧ dem c.1 c.2 - 1 ≤ dem n.1 n.2

instance {rows cols : Nat} (dem : Malla rows cols α) (nivel : α) (c n : Celda rows cols) :
    Decidable (admisible dem nivel c n) := by
  unfold admisible; infer_instance

/-- One order-free expansion round: a cell is flooded afterwards iff it
already was, or some currently flooded cell admits it. -/
def ronda_total {rows cols : Nat} (dem : Malla rows cols α) (nivel : α)
    (m : Malla rows cols Bool) : Malla rows cols Bool :=
  fun y x => m y x ||
    decide (∃ c : Celda rows cols, m c.1 c.2 = true ∧ adyacente c (y, x) ∧
      admisible dem nivel c (y, x))

/-- The flood extent after `k` order-free rounds from the seed mask. -/
def extension_ref {rows cols : Nat} (dem : Malla rows cols α) (nivel : α)
    (semillas : Malla rows cols Bool) (k : Nat) : Malla rows cols Bool :=
  (ronda_total dem nivel)^[k] semillas

/-- Reachability from a seed in at most `j` admission steps: `j = 0` is a
seed cell, and one more step moves to an 8-connected neighbor satisfying
the elevation part of the admission rule. -/
inductive alcanzable {rows cols : Nat} (dem : Malla rows cols α) (nivel : α)
    (semillas : Malla rows cols Bool) : Nat → Celda rows cols → Prop where
  | semilla (c : Celda rows cols) : semillas c.1 c.2 = true → alcanzable dem nivel semillas 0 c
  | paso (j : Nat) (c n : Celda rows cols) : alcanzable dem nivel semillas j c →
      adyacente c n → admisible dem nivel c n → alcanzable dem nivel semillas (j + 1) n

/-- Loop invariant of the source's frontier iteration: every frontier
cell is flooded, and every flooded cell that could still admit a dry
admissible neighbor is on the frontier. -/
def invariante (dem : Malla rows cols α) (nivel : α) (m : Malla rows cols Bool)
    (L : List (Celda rows cols)) : Prop :=
  (∀ c, c ∈ L → m c.1 c.2 = true) ∧
  (∀ c p : Celda rows cols, m c.1 c.2 = true → m p.1 p.2 = false →
    adyacente c p → admisible dem nivel c p → c ∈ L)

/-- Explicit state for the imperative reading of the source: the arrays
one PASO 6 iteration can see.  `propagar_inundacion` receives `dem` and
`semillas` (the river mask) by reference and allocates `inundacion`
fresh; the caller also holds the watershed mask.  Every assignment the
source performs writes to `inundacion` only, and this embedding makes
the write targets explicit so that the read-only character of the inputs
is a provable statement. -/
structure Estado (rows cols : Nat) (α : Type) where
  dem : Malla rows cols α
  rio_mask : Malla rows cols Bool
  cuenca_mask : Malla rows cols Bool
  inund : Malla rows cols Bool

/-- One expansion round on the explicit state: only `inund` is assigned. -/
def ronda_st (nivel : α) {rows cols : Nat} (s : Estado rows cols α)
    (activos : List (Celda rows cols)) : Estado rows cols α × List (Celda rows cols) :=
  ({ s with inund := (ronda s.dem nivel s.inund activos).1 },
    (ronda s.dem nivel s.inund activos).2)

/-- The bounded expansion loop on the explicit state. -/
def bucle_st (nivel : α) {rows cols : Nat} :
    Nat → Estado rows cols α → List (Celda rows cols) → Estado rows cols α
  | 0, s, _ => s
  | pasos + 1, s, activos =>
    let r := ronda_st nivel s activos
    if r.2.isEmpty then r.1 else bucle_st nivel pasos r.1 r.2

/-- `propagar_inundacion` on the explicit state: mark the seeds into the
freshly allocated `inund` grid and run the loop. -/
def propagar_st (nivel : α) (pasos : Nat) {rows cols : Nat} (s : Estado rows cols α) :
    Estado rows cols α :=
  bucle_st nivel pasos { s with inund := marcar_semillas s.rio_mask }
    (lista_semillas s.rio_mask)

/-- One PASO 6 iteration on the explicit state: propagate, then replace
the result grid by its intersection with the watershed mask. -/
def simular_st (nivel : α) (pasos : Nat) {rows cols : Nat} (s : Estado rows cols α) :
    Estado rows cols α :=
  let s1 := propagar_st nivel pasos s
  { s1 with inund := fun y x => s1.inund y x && s1.cuenca_mask y x }

/-!
Concrete instances, over `α := ℤ`, used by witnesses and counterexamples.
-/

/-- The 5×5 barrier scenario of the spec: column 3 has elevation 100,
everything else 0. -/
def dem7 : Malla 5 5 ℤ := fun _ x => if x.val = 3 then 100 else 0

/-- Single seed at `(2, 0)` for the barrier scenario. -/
def sem7 : Malla 5 5 Bool := fun y x => decide (y.val = 2 ∧ x.val = 0)

/-- A flat 1×5 strip. -/
def dem5 : Malla 1 5 ℤ := fun _ _ => 0

/-- Single seed in the left cell of the strip. -/
def sem5 : Malla 1 5 Bool := fun _ x => decide (x.val = 0)

/-- The extent computed on the strip at level 0 with budget 2. -/
def ext5 : Malla 1 5 Bool := propagar_inundacion dem5 sem5 0 2

/-- The strip seeds together with the level-0 extent, reused as seeds. -/
def union5 : Malla 1 5 Bool := fun y x => sem5 y x || ext5 y x

/-- A 1×2 grid descending from elevation 2 to 1. -/
def demContra : Malla 1 2 ℤ := fun _ x => if x.val = 0 then 2 else 1

/-- Seed in the higher cell of the descending grid. -/
def semContra : Malla 1 2 Bool := fun _ x => decide (x.val = 0)

/-- A flat 1×1 grid. -/
def demW1 : Malla 1 1 ℤ := fun _ _ => 0

/-- The all-true 1×1 mask. -/
def maskW1 : Malla 1 1 Bool := fun _ _ => true

/-- A flat 1×2 grid. -/
def demB : Malla 1 2 ℤ := fun _ _ => 0

/-- The all-true 1×2 mask: both cells are seeds. -/
def semB : Malla 1 2 Bool := fun _ _ => true

/-- The seed coordinates of `semB` in reversed (non-source) order. -/
def listaB : List (Celda 1 2) := [(0, 1), (0, 0)]

/-- A flat 1×3 strip. -/
def demT : Malla 1 3 ℤ := fun _ _ => 0

/-- Single seed in the left cell of the 1×3 strip. -/
def semT : Malla 1 3 Bool := fun _ x => decide (x.val = 0)

/-- A 1×2 grid whose seed cell sits at elevation 5 over a plain at 0. -/
def demD : Malla 1 2 ℤ := fun _ x => if x.val = 0 then 5 else 0

/-- Seed on the elevated cell. -/
def semD : Malla 1 2 Bool := fun _ x => decide (x.val = 0)

/-- Two booleans implying each other as truth are equal. -/
theorem bool_eq_de_iff {a b : Bool} (h1 : a = true → b = true) (h2 : b = true → a = true) :
    a = b := by
  cases a <;> cases b <;> simp_all

/-- A cell is in the seed list exactly when the seed mask holds there. -/
theorem mem_lista_semillas {rows cols : Nat} (semillas : Malla rows cols Bool)
    (p : Celda rows cols) : p ∈ lista_semillas semillas ↔ semillas p.1 p.2 = true := by
  obtain ⟨py, px⟩ := p
  unfold lista_semillas
  rw [List.mem_flatMap]
  constructor
  · rintro ⟨y, -, hy⟩
    rw [List.mem_filterMap] at hy
    obtain ⟨x, -, hx⟩ := hy
    by_cases h : semillas y x = true
    · rw [if_pos h] at hx
      obtain ⟨rfl, rfl⟩ := Prod.mk.injEq .. ▸ Option.some.injEq .. ▸ hx
      exact h
    · rw [if_neg h] at hx
      exact absurd hx (by simp)
  · intro h
    refine ⟨py, List.mem_finRange py, ?_⟩
    rw [List.mem_filterMap]
    exact ⟨px, List.mem_finRange px, by rw [if_pos h]⟩

/-- Marking a cell leaves every true cell true. -/
theorem marcar_mono {rows cols : Nat} (m : Malla rows cols Bool) (p : Celda rows cols)
    (y : Fin rows) (x : Fin cols) (h : m y x = true) : marcar m p y x = true := by
  unfold marcar
  split <;> simp [h]

/-- Folding `marcar` over a list sets exactly the listed cells. -/
theorem foldl_marcar_eq_true {rows cols : Nat} (L : List (Celda rows cols))
    (m : Malla rows cols Bool) (y : Fin rows) (x : Fin cols) :
    (L.foldl marcar m) y x = true ↔ m y x = true ∨ (y, x) ∈ L := by
  induction L generalizing m with
  | nil => simp
  | cons c L ih =>
    rw [List.foldl_cons, ih]
    unfold marcar
    by_cases h : ((y, x) : Celda rows cols) = c
    · simp [h]
    · simp only [if_neg h, List.mem_cons]
      tauto

/-- Marking the seed list on the all-false grid reproduces the seed mask. -/
theorem marcar_semillas_eq {rows cols : Nat} (semillas : Malla rows cols Bool)
    (y : Fin rows) (x : Fin cols) : marcar_semillas semillas y x = semillas y x := by
  unfold marcar_semillas
  have hm := foldl_marcar_eq_true (lista_semillas semillas) (fun _ _ => false) y x
  have hmem := mem_lista_semillas semillas (y, x)
  cases hsx : semillas y x
  · cases hfold : (lista_semillas semillas).foldl marcar (fun _ _ => false) y x
    · rfl
    · rcases hm.mp hfold with h | h
      · exact absurd h (by simp)
      · rw [hmem] at h
        rw [h] at hsx
        exact absurd hsx (by simp)
  · exact hm.mpr (Or.inr (hmem.mpr hsx))

/-- Any offset pair with both coordinates of absolute value at most one
and not both zero is one of the eight listed offsets. -/
theorem mem_desplazamientos_de (a b : Int) (h1 : a.natAbs ≤ 1) (h2 : b.natAbs ≤ 1)
    (hnz : ¬(a = 0 ∧ b = 0)) : (a, b) ∈ desplazamientos := by
  have ha : a = -1 ∨ a = 0 ∨ a = 1 := by omega
  have hb : b = -1 ∨ b = 0 ∨ b = 1 := by omega
  rcases ha with rfl | rfl | rfl <;> rcases hb with rfl | rfl | rfl <;>
    simp_all [desplazamientos]

/-- The generated neighbor list of `(y, x)` contains exactly the
8-connected neighbors of `(y, x)` that lie inside the grid: offsets are
applied arithmetically and out-of-range results are dropped, never
wrapped. -/
theorem mem_vecinos {rows cols : Nat} (y : Fin rows) (x : Fin cols) (n : Celda rows cols) :
    n ∈ vecinos rows cols y x ↔ adyacente (y, x) n := by
  obtain ⟨n1, n2⟩ := n
  unfold vecinos
  rw [List.mem_filterMap]
  constructor
  · rintro ⟨⟨d1, d2⟩, hd, hsome⟩
    dsimp only at hsome
    have hd8 : (d1 = -1 ∧ d2 = -1) ∨ (d1 = -1 ∧ d2 = 0) ∨ (d1 = -1 ∧ d2 = 1) ∨
        (d1 = 0 ∧ d2 = -1) ∨ (d1 = 0 ∧ d2 = 1) ∨ (d1 = 1 ∧ d2 = -1) ∨
        (d1 = 1 ∧ d2 = 0) ∨ (d1 = 1 ∧ d2 = 1) := by
      simpa [desplazamientos, Prod.mk.injEq] using hd
    split at hsome
    case isTrue h =>
      have hpair := Option.some.inj hsome
      rw [Prod.mk.injEq] at hpair
      have h1 : n1.val = ((y.val : Int) + d1).toNat := (congrArg Fin.val hpair.1).symm
      have h2 : n2.val = ((x.val : Int) + d2).toNat := (congrArg Fin.val hpair.2).symm
      show (y, x) ≠ (n1, n2) ∧ ((y.val : Int) - n1.val).natAbs ≤ 1 ∧
        ((x.val : Int) - n2.val).natAbs ≤ 1
      refine ⟨fun he => ?_, by omega, by omega⟩
      rw [Prod.mk.injEq] at he
      have hy : y.val = n1.val := congrArg Fin.val he.1
      have hx : x.val = n2.val := congrArg Fin.val he.2
      omega
    case isFalse => exact absurd hsome (by simp)
  · intro h
    have hne : (y, x) ≠ (n1, n2) := h.1
    have h1 : ((y.val : Int) - n1.val).natAbs ≤ 1 := h.2.1
    have h2 : ((x.val : Int) - n2.val).natAbs ≤ 1 := h.2.2
    refine ⟨((n1.val : Int) - y.val, (n2.val : Int) - x.val), ?_, ?_⟩
    · refine mem_desplazamientos_de _ _ (by omega) (by omega) ?_
      rintro ⟨e1, e2⟩
      apply hne
      rw [Prod.mk.injEq]
      exact ⟨Fin.ext (by omega), Fin.ext (by omega)⟩
    · dsimp only
      have hy := n1.isLt
      have hx := n2.isLt
      rw [dif_pos (by omega)]
      simp only [Option.some.injEq, Prod.mk.injEq]
      refine ⟨Fin.ext ?_, Fin.ext ?_⟩ <;> · dsimp only; omega

variable {rows cols : Nat}

/-- The admission test succeeds exactly when the neighbor is not yet
flooded and the elevation conditions hold. -/
theorem condicion_eq_true (dem : Malla rows cols α) (nivel : α)
    (inund : Malla rows cols Bool) (c n : Celda rows cols) :
    condicion dem nivel inund c n = true ↔
      inund n.1 n.2 = false ∧ admisible dem nivel c n := by
  unfold condicion admisible
  simp [Bool.and_eq_true, Bool.not_eq_true', decide_eq_true_iff, and_assoc]

/-- Processing the neighbors of one cell never clears a flooded cell. -/
theorem paso_fold_mono (dem : Malla rows cols α) (nivel : α) (c : Celda rows cols)
    (ns : List (Celda rows cols)) (m : Malla rows cols Bool) (acc : List (Celda rows cols))
    (y : Fin rows) (x : Fin cols) (h : m y x = true) :
    (ns.foldl (fun t n => if condicion dem nivel t.1 c n then (marcar t.1 n, t.2 ++ [n]) else t)
      (m, acc)).1 y x = true := by
  induction ns generalizing m acc with
  | nil => exact h
  | cons n ns ih =>
    rw [List.foldl_cons]
    dsimp only
    by_cases hc : condicion dem nivel m c n = true
    · rw [if_pos hc]
      exact ih (marcar m n) (acc ++ [n]) (marcar_mono m n y x h)
    · rw [if_neg hc]
      exact ih m acc h

/-- After processing the neighbors of one frontier cell, a cell is
flooded iff it was before, or it is a listed neighbor satisfying the
elevation conditions relative to that frontier cell. -/
theorem paso_fold_mask (dem : Malla rows cols α) (nivel : α) (c : Celda rows cols)
    (ns : List (Celda rows cols)) (m : Malla rows cols Bool) (acc : List (Celda rows cols))
    (y : Fin rows) (x : Fin cols) :
    ((ns.foldl (fun t n => if condicion dem nivel t.1 c n then (marcar t.1 n, t.2 ++ [n]) else t)
      (m, acc)).1 y x = true) ↔
      (m y x = true ∨ ((y, x) ∈ ns ∧ admisible dem nivel c (y, x))) := by
  induction ns generalizing m acc with
  | nil => simp
  | cons n ns ih =>
    rw [List.foldl_cons]
    dsimp only
    by_cases hc : condicion dem nivel m c n = true
    · rw [if_pos hc, ih]
      rw [condicion_eq_true] at hc
      obtain ⟨hmn, hadm⟩ := hc
      constructor
      · rintro (hm | ⟨hmem, hadm2⟩)
        · unfold marcar at hm
          by_cases he : ((y, x) : Celda rows cols) = n
          · exact Or.inr ⟨List.mem_cons.mpr (Or.inl he), he ▸ hadm⟩
          · rw [if_neg he] at hm
            exact Or.inl hm
        · exact Or.inr ⟨List.mem_cons_of_mem _ hmem, hadm2⟩
      · rintro (hm | ⟨hmem, hadm2⟩)
        · exact Or.inl (marcar_mono m n y x hm)
        · rcases List.mem_cons.mp hmem with he | hmem2
          · exact Or.inl (by unfold marcar; rw [if_pos he])
          · exact Or.inr ⟨hmem2, hadm2⟩
    · rw [if_neg hc, ih]
      rw [condicion_eq_true] at hc
      constructor
      · rintro (hm | ⟨hmem, hadm⟩)
        · exact Or.inl hm
        · exact Or.inr ⟨List.mem_cons_of_mem _ hmem, hadm⟩
      · rintro (hm | ⟨hmem, hadm⟩)
        · exact Or.inl hm
        · rcases List.mem_cons.mp hmem with he | hmem2
          · have hadm' : admisible dem nivel c n := he ▸ hadm
            have hmn : m n.1 n.2 = true := by
              by_cases hb : m n.1 n.2 = true
              · exact hb
              · exact absurd ⟨Bool.eq_false_iff.mpr hb, hadm'⟩ hc
            have hy : y = n.1 := congrArg Prod.fst he
            have hx : x = n.2 := congrArg Prod.snd he
            exact Or.inl (by rw [hy, hx]; exact hmn)
          · exact Or.inr ⟨hmem2, hadm⟩

/-- After processing the neighbors of one frontier cell, the accumulated
`nuevos_puntos` list contains exactly its previous members plus the cells
that flipped from dry to flooded. -/
theorem paso_fold_acc (dem : Malla rows cols α) (nivel : α) (c : Celda rows cols)
    (ns : List (Celda rows cols)) (m : Malla rows cols Bool) (acc : List (Celda rows cols))
    (p : Celda rows cols) :
    (p ∈ (ns.foldl
        (fun t n => if condicion dem nivel t.1 c n then (marcar t.1 n, t.2 ++ [n]) else t)
        (m, acc)).2) ↔
      (p ∈ acc ∨
        ((ns.foldl
          (fun t n => if condicion dem nivel t.1 c n then (marcar t.1 n, t.2 ++ [n]) else t)
          (m, acc)).1 p.1 p.2 = true ∧ m p.1 p.2 = false)) := by
  induction ns generalizing m acc with
  | nil => simp
  | cons n ns ih =>
    rw [List.foldl_cons]
    dsimp only
    by_cases hc : condicion dem nivel m c n = true
    · rw [if_pos hc, ih]
      have hmn : m n.1 n.2 = false := ((condicion_eq_true dem nivel m c n).mp hc).1
      constructor
      · rintro (hacc | ⟨hmask, hm1⟩)
        · rcases List.mem_append.mp hacc with h | h
          · exact Or.inl h
          · have hp : p = n := List.mem_singleton.mp h
            refine Or.inr ⟨?_, by rw [hp]; exact hmn⟩
            refine paso_fold_mono dem nivel c ns (marcar m n) (acc ++ [n]) p.1 p.2 ?_
            unfold marcar
            rw [if_pos (show ((p.1, p.2) : Celda rows cols) = n from hp)]
        · refine Or.inr ⟨hmask, ?_⟩
          by_cases hb : m p.1 p.2 = true
          · rw [marcar_mono m n p.1 p.2 hb] at hm1
            cases hm1
          · exact Bool.eq_false_iff.mpr hb
      · rintro (hacc | ⟨hmask, hm⟩)
        · exact Or.inl (List.mem_append.mpr (Or.inl hacc))
        · by_cases hp : p = n
          · exact Or.inl (List.mem_append.mpr (Or.inr (List.mem_singleton.mpr hp)))
          · refine Or.inr ⟨hmask, ?_⟩
            unfold marcar
            rw [if_neg hp]
            exact hm
    · rw [if_neg hc, ih]

/-- Processing one frontier cell never clears a flooded cell. -/
theorem procesar_celda_mono (dem : Malla rows cols α) (nivel : α)
    (s : Malla rows cols Bool × List (Celda rows cols)) (c : Celda rows cols)
    (y : Fin rows) (x : Fin cols) (h : s.1 y x = true) :
    (procesar_celda dem nivel s c).1 y x = true := by
  obtain ⟨m, acc⟩ := s
  unfold procesar_celda
  exact paso_fold_mono dem nivel c _ m acc y x h

/-- Mask change of processing one frontier cell, phrased through
adjacency: a cell is flooded afterwards iff it was before or it is an
in-grid 8-neighbor of the frontier cell satisfying the elevation rule. -/
theorem procesar_celda_mask (dem : Malla rows cols α) (nivel : α)
    (s : Malla rows cols Bool × List (Celda rows cols)) (c : Celda rows cols)
    (y : Fin rows) (x : Fin cols) :
    ((procesar_celda dem nivel s c).1 y x = true) ↔
      (s.1 y x = true ∨ (adyacente c (y, x) ∧ admisible dem nivel c (y, x))) := by
  obtain ⟨m, acc⟩ := s
  unfold procesar_celda
  rw [paso_fold_mask, mem_vecinos]

/-- Accumulator change of processing one frontier cell. -/
theorem procesar_celda_acc (dem : Malla rows cols α) (nivel : α)
    (s : Malla rows cols Bool × List (Celda rows cols)) (c : Celda rows cols)
    (p : Celda rows cols) :
    (p ∈ (procesar_celda dem nivel s c).2) ↔
      (p ∈ s.2 ∨ ((procesar_celda dem nivel s c).1 p.1 p.2 = true ∧ s.1 p.1 p.2 = false)) := by
  obtain ⟨m, acc⟩ := s
  unfold procesar_celda
  exact paso_fold_acc dem nivel c _ m acc p

/-- A whole round never clears a flooded cell. -/
theorem ronda_fold_mono (dem : Malla rows cols α) (nivel : α)
    (L : List (Celda rows cols)) (s : Malla rows cols Bool × List (Celda rows cols))
    (y : Fin rows) (x : Fin cols) (h : s.1 y x = true) :
    ((L.foldl (procesar_celda dem nivel) s).1 y x = true) := by
  induction L generalizing s with
  | nil => exact h
  | cons c L ih =>
    rw [List.foldl_cons]
    exact ih _ (procesar_celda_mono dem nivel s c y x h)

/-- Mask change of a whole round: a cell is flooded afterwards iff it was
before or some processed frontier cell admits it. -/
theorem ronda_fold_mask (dem : Malla rows cols α) (nivel : α)
    (L : List (Celda rows cols)) (s : Malla rows cols Bool × List (Celda rows cols))
    (y : Fin rows) (x : Fin cols) :
    ((L.foldl (procesar_celda dem nivel) s).1 y x = true) ↔
      (s.1 y x = true ∨
        ∃ c, c ∈ L ∧ adyacente c (y, x) ∧ admisible dem nivel c (y, x)) := by
  induction L generalizing s with
  | nil => simp
  | cons c L ih =>
    rw [List.foldl_cons, ih, procesar_celda_mask]
    constructor
    · rintro ((hm | hcadm) | ⟨c2, hc2, hadj, hadm⟩)
      · exact Or.inl hm
      · exact Or.inr ⟨c, List.mem_cons_self c L, hcadm.1, hcadm.2⟩
      · exact Or.inr ⟨c2, List.mem_cons_of_mem _ hc2, hadj, hadm⟩
    · rintro (hm | ⟨c2, hc2, hadj, hadm⟩)
      · exact Or.inl (Or.inl hm)
      · rcases List.mem_cons.mp hc2 with rfl | h2
        · exact Or.inl (Or.inr ⟨hadj, hadm⟩)
        · exact Or.inr ⟨c2, h2, hadj, hadm⟩

/-- Accumulator change of a whole round: afterwards the accumulated list
contains exactly its previous members plus the cells that flipped from
dry to flooded during the round. -/
theorem ronda_fold_acc (dem : Malla rows cols α) (nivel : α)
    (L : List (Celda rows cols)) (s : Malla rows cols Bool × List (Celda rows cols))
    (p : Celda rows cols) :
    (p ∈ (L.foldl (procesar_celda dem nivel) s).2) ↔
      (p ∈ s.2 ∨
        ((L.foldl (procesar_celda dem nivel) s).1 p.1 p.2 = true ∧ s.1 p.1 p.2 = false)) := by
  induction L generalizing s with
  | nil => simp
  | cons c L ih =>
    rw [List.foldl_cons, ih, procesar_celda_acc]
    constructor
    · rintro ((hs | ⟨hf1, hs1⟩) | ⟨hfin, hf0⟩)
      · exact Or.inl hs
      · exact Or.inr ⟨ronda_fold_mono dem nivel L _ p.1 p.2 hf1, hs1⟩
      · refine Or.inr ⟨hfin, ?_⟩
        by_cases hb : s.1 p.1 p.2 = true
        · rw [procesar_celda_mono dem nivel s c p.1 p.2 hb] at hf0
          cases hf0
        · exact Bool.eq_false_iff.mpr hb
    · rintro (hs | ⟨hfin, hs0⟩)
      · exact Or.inl (Or.inl hs)
      · by_cases hb : (procesar_celda dem nivel s c).1 p.1 p.2 = true
        · exact Or.inl (Or.inr ⟨hb, hs0⟩)
        · exact Or.inr ⟨hfin, Bool.eq_false_iff.mpr hb⟩

/-- A round never clears a flooded cell. -/
theorem ronda_mono (dem : Malla rows cols α) (nivel : α) (m : Malla rows cols Bool)
    (L : List (Celda rows cols)) (y : Fin rows) (x : Fin cols) (h : m y x = true) :
    (ronda dem nivel m L).1 y x = true := by
  unfold ronda
  exact ronda_fold_mono dem nivel L (m, []) y x h

/-- Mask change of one source round. -/
theorem ronda_mask (dem : Malla rows cols α) (nivel : α) (m : Malla rows cols Bool)
    (L : List (Celda rows cols)) (y : Fin rows) (x : Fin cols) :
    ((ronda dem nivel m L).1 y x = true) ↔
      (m y x = true ∨ ∃ c, c ∈ L ∧ adyacente c (y, x) ∧ admisible dem nivel c (y, x)) := by
  unfold ronda
  exact ronda_fold_mask dem nivel L (m, []) y x

/-- The `nuevos_puntos` list of one source round holds exactly the cells
that flipped from dry to flooded during the round. -/
theorem ronda_acc (dem : Malla rows cols α) (nivel : α) (m : Malla rows cols Bool)
    (L : List (Celda rows cols)) (p : Celda rows cols) :
    (p ∈ (ronda dem nivel m L).2) ↔
      ((ronda dem nivel m L).1 p.1 p.2 = true ∧ m p.1 p.2 = false) := by
  unfold ronda
  have h := ronda_fold_acc dem nivel L (m, ([] : List (Celda rows cols))) p
  simpa using h

/-- Unfolding of the order-free round operator. -/
theorem ronda_total_eq_true (dem : Malla rows cols α) (nivel : α) (m : Malla rows cols Bool)
    (y : Fin rows) (x : Fin cols) :
    (ronda_total dem nivel m y x = true) ↔
      (m y x = true ∨
        ∃ c, m c.1 c.2 = true ∧ adyacente c (y, x) ∧ admisible dem nivel c (y, x)) := by
  unfold ronda_total
  simp [Bool.or_eq_true, decide_eq_true_iff]

/-- Under the invariant, one source round computes exactly the order-free
round: expanding only from the frontier loses nothing, because flooded
non-frontier cells have no dry admissible neighbors left. -/
theorem ronda_eq_ronda_total {dem : Malla rows cols α} {nivel : α}
    {m : Malla rows cols Bool} {L : List (Celda rows cols)}
    (h : invariante dem nivel m L) :
    (ronda dem nivel m L).1 = ronda_total dem nivel m := by
  funext y x
  apply bool_eq_de_iff
  · intro ht
    rw [ronda_total_eq_true]
    rcases (ronda_mask dem nivel m L y x).mp ht with hm | ⟨c, hcL, hadj, hadm⟩
    · exact Or.inl hm
    · exact Or.inr ⟨c, h.1 c hcL, hadj, hadm⟩
  · intro ht
    rw [ronda_total_eq_true] at ht
    rw [ronda_mask]
    rcases ht with hm | ⟨c, hc, hadj, hadm⟩
    · exact Or.inl hm
    · by_cases hb : m y x = true
      · exact Or.inl hb
      · exact Or.inr ⟨c, h.2 c (y, x) hc (Bool.eq_false_iff.mpr hb) hadj hadm, hadj, hadm⟩

/-- The invariant is preserved by a round, with the produced
`nuevos_puntos` list as the next frontier. -/
theorem invariante_ronda {dem : Malla rows cols α} {nivel : α}
    {m : Malla rows cols Bool} {L : List (Celda rows cols)}
    (h : invariante dem nivel m L) :
    invariante dem nivel (ronda dem nivel m L).1 (ronda dem nivel m L).2 := by
  constructor
  · intro c hc
    exact ((ronda_acc dem nivel m L c).mp hc).1
  · intro c p hc hp hadj hadm
    rw [ronda_acc]
    by_cases hb : m c.1 c.2 = true
    · exfalso
      have hpm : m p.1 p.2 = false := by
        by_cases hq : m p.1 p.2 = true
        · rw [ronda_mono dem nivel m L p.1 p.2 hq] at hp
          cases hp
        · exact Bool.eq_false_iff.mpr hq
      have hcL := h.2 c p hb hpm hadj hadm
      have hpt : (ronda dem nivel m L).1 p.1 p.2 = true := by
        rw [ronda_mask]
        exact Or.inr ⟨c, hcL, hadj, hadm⟩
      rw [hpt] at hp
      cases hp
    · exact ⟨hc, Bool.eq_false_iff.mpr hb⟩

/-- A round that produced no new points did not change the mask. -/
theorem ronda_vacia_fija {dem : Malla rows cols α} {nivel : α}
    {m : Malla rows cols Bool} {L : List (Celda rows cols)}
    (he : (ronda dem nivel m L).2.isEmpty = true) :
    (ronda dem nivel m L).1 = m := by
  funext y x
  apply bool_eq_de_iff
  · intro ht
    by_cases hb : m y x = true
    · exact hb
    · exfalso
      have hmem : ((y, x) : Celda rows cols) ∈ (ronda dem nivel m L).2 := by
        rw [ronda_acc]
        exact ⟨ht, Bool.eq_false_iff.mpr hb⟩
      rw [List.isEmpty_iff] at he
      rw [he] at hmem
      cases hmem
  · exact ronda_mono dem nivel m L y x

/-- Under the invariant, the bounded source loop computes exactly the
`k`-fold order-free round, including through its early exit. -/
theorem bucle_eq_iterada (dem : Malla rows cols α) (nivel : α) :
    ∀ (k : Nat) (m : Malla rows cols Bool) (L : List (Celda rows cols)),
      invariante dem nivel m L → ∀ (y : Fin rows) (x : Fin cols),
      bucle dem nivel k m L y x = (ronda_total dem nivel)^[k] m y x := by
  intro k
  induction k with
  | zero => intro m L _ y x; rfl
  | succ k ih =>
    intro m L h y x
    have hmask := ronda_eq_ronda_total h
    simp only [bucle]
    by_cases he : (ronda dem nivel m L).2.isEmpty = true
    · rw [if_pos he]
      have hfix : (ronda dem nivel m L).1 = m := ronda_vacia_fija he
      have hfix2 : ronda_total dem nivel m = m := by rw [← hmask]; exact hfix
      rw [hfix, Function.iterate_fixed hfix2]
    · rw [if_neg he]
      rw [ih (ronda dem nivel m L).1 (ronda dem nivel m L).2 (invariante_ronda h) y x]
      rw [hmask, ← Function.iterate_succ_apply]

/-- Marking the seed list on the all-false grid is the seed mask. -/
theorem marcar_semillas_fun {rows cols : Nat} (semillas : Malla rows cols Bool) :
    marcar_semillas semillas = semillas :=
  funext fun y => funext fun x => marcar_semillas_eq semillas y x

/-- The seed mask together with the seed list satisfies the invariant. -/
theorem invariante_semillas (dem : Malla rows cols α) (nivel : α)
    (semillas : Malla rows cols Bool) :
    invariante dem nivel semillas (lista_semillas semillas) :=
  ⟨fun c hc => (mem_lista_semillas semillas c).mp hc,
   fun c _ hc _ _ _ => (mem_lista_semillas semillas c).mpr hc⟩

/-- Main equivalence: the source's frontier-based, order-dependent loop
computes exactly the order-free iterated round. -/
theorem propagar_eq_extension (dem : Malla rows cols α) (semillas : Malla rows cols Bool)
    (nivel : α) (pasos : Nat) (y : Fin rows) (x : Fin cols) :
    propagar_inundacion dem semillas nivel pasos y x =
      extension_ref dem nivel semillas pasos y x := by
  unfold propagar_inundacion extension_ref
  rw [marcar_semillas_fun]
  exact bucle_eq_iterada dem nivel pasos semillas (lista_semillas semillas)
    (invariante_semillas dem nivel semillas) y x

/-- Raising the water level weakens the admission rule. -/
theorem admisible_mono_nivel {dem : Malla rows cols α} {n1 n2 : α} (h : n1 ≤ n2)
    {c p : Celda rows cols} (ha : admisible dem n1 c p) : admisible dem n2 c p :=
  ⟨ha.1.trans (add_le_add_left h _), ha.2⟩

/-- A flooded cell stays flooded through the order-free round. -/
theorem le_ronda_total (dem : Malla rows cols α) (nivel : α) (m : Malla rows cols Bool)
    (y : Fin rows) (x : Fin cols) (h : m y x = true) :
    ronda_total dem nivel m y x = true := by
  rw [ronda_total_eq_true]
  exact Or.inl h

/-- The order-free round is monotone in both the mask and the level. -/
theorem ronda_total_mono {dem : Malla rows cols α} {n1 n2 : α} (hn : n1 ≤ n2)
    {m m' : Malla rows cols Bool} (hm : ∀ y x, m y x = true → m' y x = true)
    (y : Fin rows) (x : Fin cols) (ht : ronda_total dem n1 m y x = true) :
    ronda_total dem n2 m' y x = true := by
  rw [ronda_total_eq_true] at ht ⊢
  rcases ht with h | ⟨c, hc, hadj, hadm⟩
  · exact Or.inl (hm y x h)
  · exact Or.inr ⟨c, hm c.1 c.2 hc, hadj, admisible_mono_nivel hn hadm⟩

/-- The iterated round is monotone in both the seed mask and the level. -/
theorem extension_mono {dem : Malla rows cols α} {n1 n2 : α} (hn : n1 ≤ n2)
    {s s' : Malla rows cols Bool} (hs : ∀ y x, s y x = true → s' y x = true) (k : Nat)
    (y : Fin rows) (x : Fin cols) (ht : extension_ref dem n1 s k y x = true) :
    extension_ref dem n2 s' k y x = true := by
  induction k generalizing y x with
  | zero => exact hs y x ht
  | succ k ih =>
    unfold extension_ref at ht ⊢
    rw [Function.iterate_succ_apply'] at ht ⊢
    exact ronda_total_mono hn (fun y x h => ih y x h) y x ht

/-- Seeds are contained in every iterate of the order-free round. -/
theorem semillas_le_extension (dem : Malla rows cols α) (nivel : α)
    (s : Malla rows cols Bool) (k : Nat) (y : Fin rows) (x : Fin cols)
    (h : s y x = true) : extension_ref dem nivel s k y x = true := by
  induction k with
  | zero => exact h
  | succ k ih =>
    unfold extension_ref
    rw [Function.iterate_succ_apply']
    exact le_ronda_total dem nivel _ y x ih

/-- Every cell of the iterated round is reachable from a seed in as many
admission steps as rounds elapsed. -/
theorem extension_alcanzable (dem : Malla rows cols α) (nivel : α)
    (s : Malla rows cols Bool) :
    ∀ (k : Nat) (y : Fin rows) (x : Fin cols),
      extension_ref dem nivel s k y x = true →
      ∃ j, j ≤ k ∧ alcanzable dem nivel s j (y, x) := by
  intro k
  induction k with
  | zero => exact fun y x h => ⟨0, Nat.le_refl 0, .semilla (y, x) h⟩
  | succ k ih =>
    intro y x h
    unfold extension_ref at h
    rw [Function.iterate_succ_apply', ronda_total_eq_true] at h
    rcases h with h | ⟨c, hc, hadj, hadm⟩
    · obtain ⟨j, hj, ha⟩ := ih y x h
      exact ⟨j, Nat.le_trans hj (Nat.le_succ k), ha⟩
    · obtain ⟨j, hj, ha⟩ := ih c.1 c.2 hc
      exact ⟨j + 1, Nat.succ_le_succ hj, .paso j c (y, x) ha hadj hadm⟩

/-- Conversely, every reachable cell appears in the iterated round after
as many rounds as its chain length. -/
theorem alcanzable_extension {dem : Malla rows cols α} {nivel : α}
    {s : Malla rows cols Bool} {j : Nat} {p : Celda rows cols}
    (h : alcanzable dem nivel s j p) : extension_ref dem nivel s j p.1 p.2 = true := by
  induction h with
  | semilla c hc => exact hc
  | paso j c n _ hadj hadm ih =>
    unfold extension_ref
    rw [Function.iterate_succ_apply', ronda_total_eq_true]
    exact Or.inr ⟨c, ih, hadj, hadm⟩

/-- The explicit-state loop never writes the elevation grid, the river
mask or the watershed mask, and its `inund` grid is the pure loop. -/
theorem bucle_st_marco (nivel : α) :
    ∀ (k : Nat) (s : Estado rows cols α) (L : List (Celda rows cols)),
      (bucle_st nivel k s L).dem = s.dem ∧ (bucle_st nivel k s L).rio_mask = s.rio_mask ∧
      (bucle_st nivel k s L).cuenca_mask = s.cuenca_mask ∧
      (bucle_st nivel k s L).inund = bucle s.dem nivel k s.inund L := by
  intro k
  induction k with
  | zero => exact fun s L => ⟨rfl, rfl, rfl, rfl⟩
  | succ k ih =>
    intro s L
    simp only [bucle_st, bucle, ronda_st]
    by_cases he : (ronda s.dem nivel s.inund L).2.isEmpty = true
    · rw [if_pos he, if_pos he]
      exact ⟨rfl, rfl, rfl, rfl⟩
    · rw [if_neg he, if_neg he]
      exact ih { s with inund := (ronda s.dem nivel s.inund L).1 } (ronda s.dem nivel s.inund L).2

/-- C9.  The propagation step of one PASO 6 iteration treats all its
input grids as read-only: on the explicit state it leaves the elevation
grid, the river mask and the watershed mask exactly as they were, and
its output grid is the pure function `simular_nivel` of the input
values, freshly built from the all-false grid. -/
theorem simular_st_entradas_inmutables (nivel : α) (pasos : Nat)
    (s : Estado rows cols α) :
    (simular_st nivel pasos s).dem = s.dem ∧
    (simular_st nivel pasos s).rio_mask = s.rio_mask ∧
    (simular_st nivel pasos s).cuenca_mask = s.cuenca_mask ∧
    ∀ (y : Fin rows) (x : Fin cols), (simular_st nivel pasos s).inund y x =
      simular_nivel s.dem s.rio_mask s.cuenca_mask nivel pasos y x := by
  obtain ⟨h1, h2, h3, h4⟩ := bucle_st_marco nivel pasos
    { s with inund := marcar_semillas s.rio_mask } (lista_semillas s.rio_mask)
  have h1' : (simular_st nivel pasos s).dem = s.dem := h1
  have h2' : (simular_st nivel pasos s).rio_mask = s.rio_mask := h2
  have h3' : (simular_st nivel pasos s).cuenca_mask = s.cuenca_mask := h3
  refine ⟨h1', h2', h3', ?_⟩
  intro y x
  have h4' : (propagar_st nivel pasos s).inund =
      bucle s.dem nivel pasos (marcar_semillas s.rio_mask) (lista_semillas s.rio_mask) := h4
  have hc' : (propagar_st nivel pasos s).cuenca_mask = s.cuenca_mask := h3
  show ((propagar_st nivel pasos s).inund y x && (propagar_st nivel pasos s).cuenca_mask y x) =
    simular_nivel s.dem s.rio_mask s.cuenca_mask nivel pasos y x
  rw [h4', hc']
  rfl

/-- C1.  Soundness of the flood extent: every cell reported flooded by
one PASO 6 iteration is reachable from a seed (a chain of length 0 is a
seed itself) through a chain of 8-connected admission steps of length at
most the iteration budget, and lies inside the watershed mask. -/
theorem simular_nivel_solo_alcanzables (dem : Malla rows cols α)
    (rio cuenca : Malla rows cols Bool) (nivel : α) (pasos : Nat)
    (y : Fin rows) (x : Fin cols)
    (h : simular_nivel dem rio cuenca nivel pasos y x = true) :
    (∃ j, j ≤ pasos ∧ alcanzable dem nivel rio j (y, x)) ∧ cuenca y x = true := by
  unfold simular_nivel at h
  rw [Bool.and_eq_true] at h
  refine ⟨?_, h.2⟩
  have hp := h.1
  rw [propagar_eq_extension] at hp
  exact extension_alcanzable dem nivel rio pasos y x hp

/-- Witness for C1 on the concrete 1×1 grid. -/
theorem simular_nivel_solo_alcanzables_testigo :
    (∃ j, j ≤ 0 ∧ alcanzable demW1 (1 : ℤ) maskW1 j (0, 0)) ∧ maskW1 0 0 = true :=
  simular_nivel_solo_alcanzables demW1 maskW1 maskW1 1 0 0 0 (by decide)

/-- C2.  Monotonicity in the water level: with all other inputs fixed, a
cell flooded at the lower of two levels is also flooded at the higher. -/
theorem simular_nivel_monotono_en_nivel (dem : Malla rows cols α)
    (rio cuenca : Malla rows cols Bool) {L1 L2 : α} (h : L1 < L2) (pasos : Nat)
    (y : Fin rows) (x : Fin cols)
    (ht : simular_nivel dem rio cuenca L1 pasos y x = true) :
    simular_nivel dem rio cuenca L2 pasos y x = true := by
  unfold simular_nivel at ht ⊢
  rw [Bool.and_eq_true] at ht ⊢
  refine ⟨?_, ht.2⟩
  have h1 := ht.1
  rw [propagar_eq_extension] at h1 ⊢
  exact extension_mono (le_of_lt h) (fun _ _ hh => hh) pasos y x h1

/-- Witness for C2 on the concrete 1×1 grid, at levels 0 < 1. -/
theorem simular_nivel_monotono_en_nivel_testigo :
    ((0 : ℤ) < 1) ∧ simular_nivel demW1 maskW1 maskW1 (1 : ℤ) 0 0 0 = true :=
  ⟨by decide, @simular_nivel_monotono_en_nivel ℤ _ 1 1 demW1 maskW1 maskW1 0 1 (by decide) 0 0 0
    (by decide)⟩

/-- C3.  Order independence: running the source loop with any frontier
list holding exactly the seed cells, in any order and multiplicity,
returns the same grid as `propagar_inundacion` itself, which therefore
only depends on the input values.  Admissions within a round only
consult elevations of prior-round cells, so the processing order cannot
change the final extent. -/
theorem propagar_independiente_del_orden (dem : Malla rows cols α)
    (semillas : Malla rows cols Bool) (nivel : α) (pasos : Nat)
    (L : List (Celda rows cols))
    (hL : ∀ c : Celda rows cols, c ∈ L ↔ semillas c.1 c.2 = true)
    (y : Fin rows) (x : Fin cols) :
    bucle dem nivel pasos (marcar_semillas semillas) L y x =
      propagar_inundacion dem semillas nivel pasos y x := by
  rw [marcar_semillas_fun]
  have hinv : invariante dem nivel semillas L :=
    ⟨fun c hc => (hL c).mp hc, fun c _ hc _ _ _ => (hL c).mpr hc⟩
  rw [bucle_eq_iterada dem nivel pasos semillas L hinv y x, propagar_eq_extension]
  rfl

/-- Witness for C3: both cells of a flat 1×2 grid are seeds, and feeding
the loop the seed list in reversed order returns the same value. -/
theorem propagar_independiente_del_orden_testigo :
    (∀ c : Celda 1 2, c ∈ listaB ↔ semB c.1 c.2 = true) ∧
      bucle demB (1 : ℤ) 3 (marcar_semillas semB) listaB 0 0 =
        propagar_inundacion demB semB (1 : ℤ) 3 0 0 :=
  ⟨by decide, propagar_independiente_del_orden demB semB 1 3 listaB (by decide) 0 0⟩

/-- C6.  A zero iteration budget performs no expansion: one PASO 6
iteration with `pasos = 0` returns exactly the seed mask intersected
with the watershed mask. -/
theorem simular_nivel_pasos_cero (dem : Malla rows cols α)
    (rio cuenca : Malla rows cols Bool) (nivel : α) (y : Fin rows) (x : Fin cols) :
    simular_nivel dem rio cuenca nivel 0 y x = (rio y x && cuenca y x) := by
  unfold simular_nivel propagar_inundacion
  simp only [bucle]
  rw [marcar_semillas_eq]

/-- C10.  Seeds are admitted unconditionally: whatever the level (in
particular a negative one) and whatever the seed's own elevation, every
seed cell is flooded in the grid `propagar_inundacion` returns, before
any intersection with the watershed mask. -/
theorem propagar_incluye_semillas (dem : Malla rows cols α)
    (semillas : Malla rows cols Bool) (nivel : α) (pasos : Nat)
    (y : Fin rows) (x : Fin cols) (h : semillas y x = true) :
    propagar_inundacion dem semillas nivel pasos y x = true := by
  rw [propagar_eq_extension]
  exact semillas_le_extension dem nivel semillas pasos y x h

/-- Witness for C10: a seed at elevation 5 under water level −10 (its
own admission test would fail) is still reported flooded. -/
theorem propagar_incluye_semillas_testigo :
    semD 0 0 = true ∧ propagar_inundacion demD semD (-10 : ℤ) 3 0 0 = true :=
  ⟨by decide, propagar_incluye_semillas demD semD (-10) 3 0 0 (by decide)⟩

/-- C4, counterexample.  Nothing is rejected: with the negative water
level −1 on the descending 1×2 grid, `propagar_inundacion` does
propagation work and returns an ordinary flood grid in which the
non-seed cell has been flooded, instead of failing fast. -/
theorem propagar_acepta_entrada_invalida :
    ((-1 : ℤ) < 0) ∧ propagar_inundacion demContra semContra (-1) 5 0 1 = true ∧
      semContra 0 1 = false := by
  decide

/-- C4, amended.  The source performs no input validation: a negative
level is processed by the ordinary admission rule, and the call computes
the usual iterated-round extent rather than rejecting. -/
theorem propagar_sin_validacion (dem : Malla rows cols α)
    (semillas : Malla rows cols Bool) {nivel : α} (pasos : Nat) (h : nivel < 0)
    (y : Fin rows) (x : Fin cols) :
    propagar_inundacion dem semillas nivel pasos y x =
      extension_ref dem nivel semillas pasos y x :=
  propagar_eq_extension dem semillas nivel pasos y x

/-- Witness for the amended C4 at level −1 on the descending grid. -/
theorem propagar_sin_validacion_testigo :
    ((-1 : ℤ) < 0) ∧ propagar_inundacion demContra semContra (-1) 5 0 1 =
      extension_ref demContra (-1) semContra 5 0 1 :=
  ⟨by decide, @propagar_sin_validacion ℤ _ 1 2 demContra semContra (-1) 5 (by decide) 0 1⟩

/-- C5, counterexample.  With the bounded budget 2 on the flat 1×5
strip, reusing the level-0 extent as extra seeds for level 1 floods the
rightmost cell, which the run from the original seeds alone does not
reach within the same budget: the seed-reuse substitution is not valid
for every budget. -/
theorem reuso_semillas_contraejemplo :
    ((0 : ℤ) < 1) ∧ propagar_inundacion dem5 union5 1 2 0 4 = true ∧
      propagar_inundacion dem5 sem5 1 2 0 4 = false := by
  decide

/-- C5, amended.  The seed-reuse substitution is exact whenever the run
from the original seeds has converged within its budget (one more round
changes nothing): then, for levels `L1 < L2`, seeding the level-`L2` run
with the original seeds together with any level-`L1` extent returns the
same grid as seeding it with the original seeds alone. -/
theorem reuso_semillas_convergido (dem : Malla rows cols α) (S : Malla rows cols Bool)
    {L1 L2 : α} (hlt : L1 < L2) (j k : Nat)
    (hconv : ∀ (y : Fin rows) (x : Fin cols),
      propagar_inundacion dem S L2 (k + 1) y x = propagar_inundacion dem S L2 k y x)
    (y : Fin rows) (x : Fin cols) :
    propagar_inundacion dem (fun a b => S a b || propagar_inundacion dem S L1 j a b) L2 k y x =
      propagar_inundacion dem S L2 k y x := by
  have hconv' : ronda_total dem L2 (extension_ref dem L2 S k) = extension_ref dem L2 S k := by
    funext a b
    have hh := hconv a b
    rw [propagar_eq_extension, propagar_eq_extension] at hh
    unfold extension_ref at hh
    rw [Function.iterate_succ_apply'] at hh
    exact hh
  have hE1 : ∀ (i : Nat) (a : Fin rows) (b : Fin cols),
      extension_ref dem L1 S i a b = true → extension_ref dem L2 S k a b = true := by
    intro i
    induction i with
    | zero => exact fun a b h => semillas_le_extension dem L2 S k a b h
    | succ i ih =>
      intro a b h
      unfold extension_ref at h
      rw [Function.iterate_succ_apply'] at h
      have h2 := ronda_total_mono (le_of_lt hlt) ih a b h
      rw [hconv'] at h2
      exact h2
  apply bool_eq_de_iff
  · intro ht
    rw [propagar_eq_extension] at ht
    rw [propagar_eq_extension]
    have hsub : ∀ (a : Fin rows) (b : Fin cols),
        (S a b || propagar_inundacion dem S L1 j a b) = true →
        extension_ref dem L2 S k a b = true := by
      intro a b hab
      rw [Bool.or_eq_true] at hab
      rcases hab with h | h
      · exact semillas_le_extension dem L2 S k a b h
      · rw [propagar_eq_extension] at h
        exact hE1 j a b h
    have hstep := extension_mono (le_refl L2) hsub k y x ht
    have hM : extension_ref dem L2 (extension_ref dem L2 S k) k = extension_ref dem L2 S k := by
      unfold extension_ref
      exact Function.iterate_fixed hconv' k
    rw [hM] at hstep
    exact hstep
  · intro ht
    rw [propagar_eq_extension] at ht ⊢
    refine extension_mono (le_refl L2) ?_ k y x ht
    intro a b h
    rw [Bool.or_eq_true]
    exact Or.inl h

/-- Witness for the amended C5 on the flat 1×3 strip with budget 3,
which has converged, at levels 0 < 1. -/
theorem reuso_semillas_convergido_testigo :
    ((0 : ℤ) < 1) ∧
      propagar_inundacion demT (fun a b => semT a b || propagar_inundacion demT semT 0 1 a b)
        1 3 0 2 = propagar_inundacion demT semT 1 3 0 2 :=
  ⟨by decide, @reuso_semillas_convergido ℤ _ 1 3 demT semT 0 1 (by decide) 1 3 (by decide) 0 2⟩

set_option maxRecDepth 100000 in
set_option maxHeartbeats 4000000 in
/-- C7.  The concrete barrier scenario: on the 5×5 grid whose column 3
has elevation 100 over a plain at 0, with the single seed `(2, 0)`,
level 1 and a sufficient budget, no cell of columns 3 or 4 floods; the
`elevation <= head` test fails at the column-3 barrier. -/
theorem propagar_barrera_columna3 :
    ∀ y : Fin 5, propagar_inundacion dem7 sem7 1 10 y 3 = false ∧
      propagar_inundacion dem7 sem7 1 10 y 4 = false := by
  decide

/-- C8.  Boundary safety: the neighbor list generated for any cell holds
exactly the in-grid cells at offset at most one in each axis (other than
the cell itself).  Out-of-grid offsets are skipped, never wrapped, and by
construction (`Fin`-indexed grids) no access outside the grid occurs. -/
theorem vecinos_sin_envoltura (rows cols : Nat) (y : Fin rows) (x : Fin cols)
    (n : Celda rows cols) :
    n ∈ vecinos rows cols y x ↔
      (n ≠ (y, x) ∧ ((n.1.val : Int) - y.val).natAbs ≤ 1 ∧
        ((n.2.val : Int) - x.val).natAbs ≤ 1) := by
  rw [mem_vecinos]
  unfold adyacente
  dsimp only
  constructor
  · rintro ⟨hne, h1, h2⟩
    exact ⟨fun he => hne he.symm, by omega, by omega⟩
  · rintro ⟨hne, h1, h2⟩
    exact ⟨fun he => hne he.symm, by omega, by omega⟩
